import Mathlib

/-!
Verification of the geospatial raster/vector processing core of the
geocompy code chapters (src/code/chapters/03-spatial-operations.py,
05-raster-vector.py).  The vector side embeds planar point/polygon
geometry over exact rationals; the raster side embeds grids as
index-functions over exact integer/rational cell values.
-/

/-! ## Geometry model: points and segments over ℚ

The source represents coordinates as floats; we embed them as exact
rationals, so every predicate is decidable and every arithmetic law is
exact. -/

set_option maxHeartbeats 2000000

/-- A planar point, as used by shapely.Point(x, y). -/
abbrev Pt : Type := ℚ × ℚ

/-- The 2D cross product (z-component) of vectors `b - a` and `p - a`;
zero exactly when `p` is on the line through `a` and `b`. -/
def cross2 (a b p : Pt) : ℚ :=
  (b.1 - a.1) * (p.2 - a.2) - (b.2 - a.2) * (p.1 - a.1)

/-- Dot product of `p - a` with `b - a`. -/
def dot2 (a b p : Pt) : ℚ :=
  (p.1 - a.1) * (b.1 - a.1) + (p.2 - a.2) * (b.2 - a.2)

/-- Squared length of `b - a`. -/
def lenSq (a b : Pt) : ℚ :=
  (b.1 - a.1) ^ 2 + (b.2 - a.2) ^ 2

/-- Membership of point `p` on the closed segment from `a` to `b`:
collinearity plus a projection bound.  (For a degenerate segment the
condition collapses to `p = a`.) -/
def onSeg (p a b : Pt) : Prop :=
  (a = b ∧ p = a) ∨
  (a ≠ b ∧ cross2 a b p = 0 ∧ 0 ≤ dot2 a b p ∧ dot2 a b p ≤ lenSq a b)

instance (p a b : Pt) : Decidable (onSeg p a b) := by
  unfold onSeg
  infer_instance

/-- The consecutive-vertex edges of a ring given as a closed coordinate
sequence (first vertex repeated at the end), as in
shapely.Polygon([(0,0), (0,1), ..., (0,0)]). -/
def segsOf (ring : List Pt) : List (Pt × Pt) := ring.zip ring.tail

/-- Point on the boundary of the polygon whose exterior ring is `ring`. -/
def onBoundary (p : Pt) (ring : List Pt) : Prop :=
  ∃ s ∈ segsOf ring, onSeg p s.1 s.2

instance (p : Pt) (ring : List Pt) : Decidable (onBoundary p ring) := by
  unfold onBoundary
  infer_instance

/-- One step of the even-odd (ray casting) point-in-polygon rule: does the
horizontal ray from `p` to the right cross the open edge from `a` to `b`. -/
def crossesRay (p a b : Pt) : Bool :=
  (decide (p.2 < a.2) != decide (p.2 < b.2)) &&
    decide (p.1 < (b.1 - a.1) * (p.2 - a.2) / (b.2 - a.2) + a.1)

/-- Even-odd ray-casting interior test: `p` is inside the ring when the
rightward ray crosses an odd number of edges.  (Only meaningful for points
not on the boundary; the predicates below guard it with `onBoundary`.) -/
def insideRC (p : Pt) (ring : List Pt) : Bool :=
  ((segsOf ring).countP (fun s => crossesRay p s.1 s.2)) % 2 == 1

/-- Point strictly in the interior of the polygon with ring `ring`. -/
def strictlyInside (p : Pt) (ring : List Pt) : Prop :=
  insideRC p ring = true ∧ ¬ onBoundary p ring

instance (p : Pt) (ring : List Pt) : Decidable (strictlyInside p ring) := by
  unfold strictlyInside
  infer_instance

/-! ## DE-9IM matrices and the derived named predicates

The topological predicates of shapely/geopandas used throughout
03-spatial-operations.py are the DE-9IM-derived relations (spec section
4.2 and the DE-9IM note at src lines 212-218): a 3 by 3 matrix records
the dimension of the pairwise intersections of interior, boundary and
exterior of the two geometries, and each named predicate is a pattern on
that matrix.  Swapping the two geometries transposes the matrix. -/

/-- Dimension code of one DE-9IM matrix entry: empty, or dimension 0/1/2. -/
inductive Dim : Type where
  | F : Dim
  | D0 : Dim
  | D1 : Dim
  | D2 : Dim
deriving DecidableEq

/-- An entry is occupied when the corresponding intersection is nonempty
(the pattern letter T). -/
def Dim.occupied : Dim → Bool
  | Dim.F => false
  | _ => true

/-- A DE-9IM matrix: rows interior/boundary/exterior of the first
geometry, columns interior/boundary/exterior of the second. -/
structure DE9IM : Type where
  ii : Dim
  ib : Dim
  ie : Dim
  bi : Dim
  bb : Dim
  be : Dim
  ei : Dim
  eb : Dim
  ee : Dim
deriving DecidableEq

/-- The DE-9IM matrix of the swapped geometry pair: set intersection is
commutative, so relate(b, a) is the transpose of relate(a, b). -/
def DE9IM.transpose (m : DE9IM) : DE9IM :=
  ⟨m.ii, m.bi, m.ei, m.ib, m.bb, m.eb, m.ie, m.be, m.ee⟩

/-- intersects: some interior/boundary parts meet (negation of disjoint). -/
def intersectsM (m : DE9IM) : Bool :=
  m.ii.occupied || m.ib.occupied || m.bi.occupied || m.bb.occupied

/-- equals: pattern T*F**FFF* (interiors meet, neither geometry reaches
the other's exterior). -/
def equalsM (m : DE9IM) : Bool :=
  m.ii.occupied && (m.ie == Dim.F) && (m.be == Dim.F) &&
    (m.ei == Dim.F) && (m.eb == Dim.F)

/-- touches: pattern FT* or F**T* or F***T* (no interior-interior overlap
but boundaries involved). -/
def touchesM (m : DE9IM) : Bool :=
  (m.ii == Dim.F) && (m.ib.occupied || m.bi.occupied || m.bb.occupied)

/-- within: pattern T*F**F*** (interior meets interior, nothing of the
first geometry lies in the second's exterior). -/
def withinM (m : DE9IM) : Bool :=
  m.ii.occupied && (m.ie == Dim.F) && (m.be == Dim.F)

/-- contains: the within pattern read with the roles swapped. -/
def containsM (m : DE9IM) : Bool :=
  m.ii.occupied && (m.ei == Dim.F) && (m.eb == Dim.F)

/-- crosses: dimension-dependent pattern (T*T****** for lower-to-higher
dimension, T*****T** for higher-to-lower, 0-dimensional interior meet for
two lines). -/
def crossesM (dimA dimB : ℕ) (m : DE9IM) : Bool :=
  if dimA < dimB then m.ii.occupied && m.ie.occupied
  else if dimB < dimA then m.ii.occupied && m.ei.occupied
  else if dimA = 1 then m.ii == Dim.D0
  else false

/-- overlaps: equal dimensions, interiors meet in the common dimension,
and each geometry reaches the other's exterior. -/
def overlapsM (dimA dimB : ℕ) (m : DE9IM) : Bool :=
  if dimA = dimB then
    (if dimA = 1 then m.ii == Dim.D1 else m.ii.occupied) &&
      m.ie.occupied && m.ei.occupied
  else false

/-- The DE-9IM matrix of a point against a (nondegenerate) polygon given
by its exterior ring: the point's interior is the point itself and its
boundary is empty; the polygon's interior, boundary and exterior minus a
single point keep dimensions 2, 1 and 2. -/
def relatePointRing (p : Pt) (ring : List Pt) : DE9IM where
  ii := if strictlyInside p ring then Dim.D0 else Dim.F
  ib := if onBoundary p ring then Dim.D0 else Dim.F
  ie := if insideRC p ring = true ∨ onBoundary p ring then Dim.F else Dim.D0
  bi := Dim.F
  bb := Dim.F
  be := Dim.F
  ei := Dim.D2
  eb := Dim.D1
  ee := Dim.D2

/-- points.intersects(poly) for a single point (shapely semantics). -/
def pointIntersects (p : Pt) (ring : List Pt) : Bool :=
  intersectsM (relatePointRing p ring)

/-- points.within(poly) for a single point. -/
def pointWithin (p : Pt) (ring : List Pt) : Bool :=
  withinM (relatePointRing p ring)

/-- points.touches(poly) for a single point. -/
def pointTouches (p : Pt) (ring : List Pt) : Bool :=
  touchesM (relatePointRing p ring)

/-- Many-to-one batched evaluation of .intersects over a GeoSeries of
points against one polygon, preserving input order (src lines 256-258). -/
def manyIntersects (ps : List Pt) (ring : List Pt) : List Bool :=
  ps.map (fun p => pointIntersects p ring)

/-- Many-to-one batched evaluation of .within (src line 316). -/
def manyWithin (ps : List Pt) (ring : List Pt) : List Bool :=
  ps.map (fun p => pointWithin p ring)

/-- Many-to-one batched evaluation of .touches (src line 318). -/
def manyTouches (ps : List Pt) (ring : List Pt) : List Bool :=
  ps.map (fun p => pointTouches p ring)

/-- The three demonstration points of src lines 226-230. -/
def points : List Pt := [(0.2, 0.1), (0.7, 0.2), (0.4, 0.8)]

/-- The demonstration polygon ring of src lines 234-236. -/
def poly : List Pt := [(0, 0), (0, 1), (1, 1), (1, 0.5), (0, 0)]

/-- The first demonstration point lies on the diagonal boundary edge. -/
lemma pointA_onBoundary : onBoundary (0.2, 0.1) poly := by
  norm_num [onBoundary, segsOf, poly, onSeg, cross2, dot2, lenSq]

/-- The second demonstration point is not on the boundary. -/
lemma pointB_not_onBoundary : ¬ onBoundary (0.7, 0.2) poly := by
  norm_num [onBoundary, segsOf, poly, onSeg, cross2, dot2, lenSq]

/-- The third demonstration point is not on the boundary. -/
lemma pointC_not_onBoundary : ¬ onBoundary (0.4, 0.8) poly := by
  norm_num [onBoundary, segsOf, poly, onSeg, cross2, dot2, lenSq]

/-- The first demonstration point fails the ray-casting interior test
(it sits exactly on the boundary, which ray casting counts as outside
here). -/
lemma pointA_insideRC : insideRC (0.2, 0.1) poly = false := by
  norm_num [insideRC, segsOf, poly, crossesRay, List.countP, List.countP.go]

/-- The second demonstration point is outside by ray casting. -/
lemma pointB_insideRC : insideRC (0.7, 0.2) poly = false := by
  norm_num [insideRC, segsOf, poly, crossesRay, List.countP, List.countP.go]

/-- The third demonstration point is inside by ray casting. -/
lemma pointC_insideRC : insideRC (0.4, 0.8) poly = true := by
  norm_num [insideRC, segsOf, poly, crossesRay, List.countP, List.countP.go]

/-- Claim C2: evaluating the predicates of the three points (0.2,0.1),
(0.7,0.2), (0.4,0.8) against the polygon with exterior ring
(0,0),(0,1),(1,1),(1,0.5),(0,0) returns, in input order,
intersects = [True, False, True], within = [False, False, True], and
touches = [True, False, False]. -/
theorem claimC2_matrix_predicate_scenario :
    manyIntersects points poly = [true, false, true] ∧
    manyWithin points poly = [false, false, true] ∧
    manyTouches points poly = [true, false, false] := by
  simp [manyIntersects, manyWithin, manyTouches, pointIntersects,
    pointWithin, pointTouches, relatePointRing, intersectsM, withinM,
    touchesM, strictlyInside, points, Dim.occupied, pointA_onBoundary,
    pointB_not_onBoundary, pointC_not_onBoundary, pointA_insideRC,
    pointB_insideRC, pointC_insideRC]

/-! ## Claim C4: symmetry of the topological predicates

Swapping the two geometries of a DE-9IM relation transposes the matrix
(set intersection is commutative), so a predicate is symmetric exactly
when its pattern is invariant under transposition.  The narrative at src
lines 206-208 asserts symmetry of equals, intersects, crosses, touches
and overlaps, and asymmetry of contains and within. -/

/-- intersects is invariant under swapping the geometries. -/
lemma intersectsM_transpose (m : DE9IM) :
    intersectsM m.transpose = intersectsM m := by
  simp only [intersectsM, DE9IM.transpose]
  ac_rfl

/-- equals is invariant under swapping the geometries. -/
lemma equalsM_transpose (m : DE9IM) :
    equalsM m.transpose = equalsM m := by
  simp only [equalsM, DE9IM.transpose]
  ac_rfl

/-- touches is invariant under swapping the geometries. -/
lemma touchesM_transpose (m : DE9IM) :
    touchesM m.transpose = touchesM m := by
  simp only [touchesM, DE9IM.transpose]
  cases m.ii == Dim.F
  · simp
  · simp only [Bool.true_and]
    ac_rfl

/-- crosses is invariant under swapping the geometries (the dimension
arguments swap along with the matrix). -/
lemma crossesM_transpose (dimA dimB : ℕ) (m : DE9IM) :
    crossesM dimB dimA m.transpose = crossesM dimA dimB m := by
  rcases Nat.lt_trichotomy dimA dimB with h | h | h
  · simp [crossesM, DE9IM.transpose, h, Nat.lt_asymm h]
  · subst h
    simp [crossesM, DE9IM.transpose]
  · simp [crossesM, DE9IM.transpose, h, Nat.lt_asymm h]

/-- overlaps is invariant under swapping the geometries. -/
lemma overlapsM_transpose (dimA dimB : ℕ) (m : DE9IM) :
    overlapsM dimB dimA m.transpose = overlapsM dimA dimB m := by
  rcases eq_or_ne dimA dimB with h | h
  · subst h
    simp only [overlapsM, DE9IM.transpose, if_pos rfl]
    ac_rfl
  · simp [overlapsM, DE9IM.transpose, h, h.symm]

/-- The third demonstration point is within the demonstration polygon:
the asymmetry witness for within/contains. -/
lemma withinM_pointC : withinM (relatePointRing (0.4, 0.8) poly) = true := by
  simp [withinM, relatePointRing, strictlyInside, pointC_insideRC,
    pointC_not_onBoundary, Dim.occupied]

/-- Swapped, the polygon is not within the point. -/
lemma withinM_pointC_transpose :
    withinM (DE9IM.transpose (relatePointRing (0.4, 0.8) poly)) = false := by
  simp [withinM, DE9IM.transpose, relatePointRing, strictlyInside,
    pointC_insideRC, pointC_not_onBoundary, Dim.occupied]

/-- The point does not contain the polygon. -/
lemma containsM_pointC :
    containsM (relatePointRing (0.4, 0.8) poly) = false := by
  simp [containsM, relatePointRing, strictlyInside, pointC_insideRC,
    pointC_not_onBoundary, Dim.occupied]

/-- Swapped, the polygon does contain the point. -/
lemma containsM_pointC_transpose :
    containsM (DE9IM.transpose (relatePointRing (0.4, 0.8) poly)) = true := by
  simp [containsM, DE9IM.transpose, relatePointRing, strictlyInside,
    pointC_insideRC, pointC_not_onBoundary, Dim.occupied]

/-- Claim C4: for every pair of geometries, intersects, equals, touches,
crosses and overlaps give the same result on (a,b) as on (b,a) — the
DE-9IM matrix of the swapped pair is the transpose, and each of those
patterns is transpose-invariant — while within and contains are not
symmetric (witnessed by the point-in-polygon pair of src lines 226-236);
instead within(a,b) equals contains(b,a). -/
theorem claimC4_predicate_symmetry :
    (∀ m : DE9IM, intersectsM m.transpose = intersectsM m) ∧
    (∀ m : DE9IM, equalsM m.transpose = equalsM m) ∧
    (∀ m : DE9IM, touchesM m.transpose = touchesM m) ∧
    (∀ dimA dimB : ℕ, ∀ m : DE9IM,
      crossesM dimB dimA m.transpose = crossesM dimA dimB m) ∧
    (∀ dimA dimB : ℕ, ∀ m : DE9IM,
      overlapsM dimB dimA m.transpose = overlapsM dimA dimB m) ∧
    (withinM (relatePointRing (0.4, 0.8) poly) ≠
      withinM (DE9IM.transpose (relatePointRing (0.4, 0.8) poly))) ∧
    (containsM (relatePointRing (0.4, 0.8) poly) ≠
      containsM (DE9IM.transpose (relatePointRing (0.4, 0.8) poly))) ∧
    (∀ m : DE9IM, withinM m = containsM m.transpose) :=
  ⟨intersectsM_transpose, equalsM_transpose, touchesM_transpose,
    crossesM_transpose, overlapsM_transpose,
    by rw [withinM_pointC, withinM_pointC_transpose]; simp,
    by rw [containsM_pointC, containsM_pointC_transpose]; simp,
    fun _ => rfl⟩

/-! ## Claim C3: distance non-negativity and zero-iff-intersecting

The .distance method (src lines 330, 338, 700) returns the minimum planar
Euclidean distance between any point of the two geometries, with no
geodesic correction; for the point-against-polygon pairs used in the
source this is zero when the point intersects the polygon and otherwise
the minimum distance to a boundary edge.  We compute the squared distance
exactly over ℚ; the distance itself is its real square root. -/

/-- Squared planar distance from `p` to the closed segment from `a` to
`b`, by the clamped orthogonal-projection formula. -/
def segDistSq (p a b : Pt) : ℚ :=
  if lenSq a b = 0 then (p.1 - a.1) ^ 2 + (p.2 - a.2) ^ 2
  else
    let t := max 0 (min 1 (dot2 a b p / lenSq a b))
    (p.1 - (a.1 + t * (b.1 - a.1))) ^ 2 + (p.2 - (a.2 + t * (b.2 - a.2))) ^ 2

/-- A sum of two rational squares vanishes only componentwise. -/
lemma sq_add_sq_eq_zero_iff (x y : ℚ) :
    x ^ 2 + y ^ 2 = 0 ↔ x = 0 ∧ y = 0 := by
  constructor
  · intro h
    constructor <;> nlinarith [sq_nonneg x, sq_nonneg y]
  · rintro ⟨hx, hy⟩
    simp [hx, hy]

/-- The squared edge length vanishes exactly for a degenerate edge. -/
lemma lenSq_eq_zero_iff (a b : Pt) : lenSq a b = 0 ↔ a = b := by
  rw [lenSq, sq_add_sq_eq_zero_iff]
  rw [Prod.ext_iff]
  constructor
  · rintro ⟨h1, h2⟩
    constructor <;> linarith
  · rintro ⟨h1, h2⟩
    constructor <;> linarith

/-- Squared point-to-segment distance is non-negative. -/
lemma segDistSq_nonneg (p a b : Pt) : 0 ≤ segDistSq p a b := by
  unfold segDistSq
  split <;> positivity

/-- Squared point-to-segment distance vanishes exactly on the segment. -/
lemma segDistSq_eq_zero_iff (p a b : Pt) :
    segDistSq p a b = 0 ↔ onSeg p a b := by
  by_cases hab : lenSq a b = 0
  · have hab2 : a = b := (lenSq_eq_zero_iff a b).1 hab
    rw [segDistSq, if_pos hab, sq_add_sq_eq_zero_iff, onSeg]
    subst hab2
    constructor
    · rintro ⟨h1, h2⟩
      exact Or.inl ⟨rfl, Prod.ext (by linarith) (by linarith)⟩
    · rintro (⟨-, hp⟩ | ⟨hne, -⟩)
      · subst hp
        simp
      · exact absurd rfl hne
  · have hab2 : a ≠ b := fun h => hab ((lenSq_eq_zero_iff a b).2 h)
    have hnn : 0 ≤ lenSq a b := by
      unfold lenSq
      positivity
    have hpos : 0 < lenSq a b := lt_of_le_of_ne hnn (Ne.symm hab)
    rw [segDistSq, if_neg hab, sq_add_sq_eq_zero_iff, onSeg]
    constructor
    · rintro ⟨h1, h2⟩
      set t := max 0 (min 1 (dot2 a b p / lenSq a b)) with ht
      have ht0 : 0 ≤ t := le_max_left 0 _
      have ht1 : t ≤ 1 := max_le zero_le_one (min_le_left 1 _)
      have hp1 : p.1 - a.1 = t * (b.1 - a.1) := by linarith
      have hp2 : p.2 - a.2 = t * (b.2 - a.2) := by linarith
      have hdt : dot2 a b p = t * lenSq a b := by
        unfold dot2 lenSq
        rw [hp1, hp2]
        ring
      refine Or.inr ⟨hab2, ?_, ?_, ?_⟩
      · unfold cross2
        rw [hp1, hp2]
        ring
      · rw [hdt]
        exact mul_nonneg ht0 hnn
      · rw [hdt]
        calc t * lenSq a b ≤ 1 * lenSq a b :=
              mul_le_mul_of_nonneg_right ht1 hnn
          _ = lenSq a b := one_mul _
    · rintro (⟨heq, -⟩ | ⟨-, hcross, hd0, hd1⟩)
      · exact absurd heq hab2
      · have hx0 : 0 ≤ dot2 a b p / lenSq a b := div_nonneg hd0 hnn
        have hx1 : dot2 a b p / lenSq a b ≤ 1 := (div_le_one hpos).2 hd1
        rw [min_eq_right hx1, max_eq_right hx0]
        unfold cross2 at hcross
        unfold dot2 lenSq
        unfold lenSq at hab
        constructor
        · field_simp
          linear_combination (a.2 - b.2) * hcross
        · field_simp
          linear_combination (b.1 - a.1) * hcross

/-- Squared distance from a point to the polygon with exterior ring
`ring`: zero when the point intersects the polygon, otherwise the minimum
squared distance over the boundary edges. -/
def ringDistSq (p : Pt) (ring : List Pt) : ℚ :=
  if pointIntersects p ring = true then 0
  else
    match segsOf ring with
    | [] => 0
    | s :: rest =>
        rest.foldl (fun m e => min m (segDistSq p e.1 e.2)) (segDistSq p s.1 s.2)

/-- A fold of minima stays positive when the seed and all entries are. -/
lemma foldl_min_pos (p : Pt) (l : List (Pt × Pt)) (init : ℚ)
    (hinit : 0 < init) (h : ∀ e ∈ l, 0 < segDistSq p e.1 e.2) :
    0 < l.foldl (fun m e => min m (segDistSq p e.1 e.2)) init := by
  induction l generalizing init with
  | nil => exact hinit
  | cons e rest ih =>
      refine ih (min init (segDistSq p e.1 e.2)) ?_ ?_
      · exact lt_min hinit (h e (List.mem_cons_self e rest))
      · intro e2 he2
        exact h e2 (List.mem_cons_of_mem e he2)

/-- A fold of minima stays non-negative when the seed and entries are. -/
lemma foldl_min_nonneg (p : Pt) (l : List (Pt × Pt)) (init : ℚ)
    (hinit : 0 ≤ init) :
    0 ≤ l.foldl (fun m e => min m (segDistSq p e.1 e.2)) init := by
  induction l generalizing init with
  | nil => exact hinit
  | cons e rest ih =>
      exact ih (min init (segDistSq p e.1 e.2))
        (le_min hinit (segDistSq_nonneg p e.1 e.2))

/-- The point-versus-polygon intersects predicate unfolded into the
interior and boundary membership tests. -/
lemma pointIntersects_iff (p : Pt) (ring : List Pt) :
    pointIntersects p ring = true ↔
      (insideRC p ring = true ∨ onBoundary p ring) := by
  simp only [pointIntersects, intersectsM, relatePointRing]
  by_cases h2 : onBoundary p ring <;> cases h1 : insideRC p ring <;>
    simp [strictlyInside, Dim.occupied, h1, h2]

/-- Squared point-to-polygon distance is non-negative. -/
lemma ringDistSq_nonneg (p : Pt) (ring : List Pt) : 0 ≤ ringDistSq p ring := by
  unfold ringDistSq
  split
  · exact le_refl 0
  · split
    · exact le_refl 0
    · exact foldl_min_nonneg p _ _ (segDistSq_nonneg p _ _)

/-- Squared point-to-polygon distance vanishes exactly when the point
intersects the polygon (ring with at least one edge). -/
lemma ringDistSq_eq_zero_iff (p : Pt) (ring : List Pt)
    (hring : 2 ≤ ring.length) :
    ringDistSq p ring = 0 ↔ pointIntersects p ring = true := by
  constructor
  · intro h
    by_contra hni
    have hnb : ¬ onBoundary p ring := by
      rw [pointIntersects_iff] at hni
      tauto
    have hseg : ∀ e ∈ segsOf ring, 0 < segDistSq p e.1 e.2 := by
      intro e he
      have hne : ¬ onSeg p e.1 e.2 := fun hon => hnb ⟨e, he, hon⟩
      have := segDistSq_nonneg p e.1 e.2
      rcases lt_or_eq_of_le this with hlt | heq
      · exact hlt
      · exact absurd ((segDistSq_eq_zero_iff p e.1 e.2).1 heq.symm) hne
    have hlen : segsOf ring ≠ [] := by
      unfold segsOf
      intro hz
      rcases List.zip_eq_nil_iff.1 hz with hr | ht
      · rw [hr] at hring
        simp at hring
      · have : ring.length ≤ 1 := by
          have := congrArg List.length ht
          simp [List.length_tail] at this
          omega
        omega
    rw [ringDistSq] at h
    rw [if_neg hni] at h
    rcases hsz : segsOf ring with _ | ⟨s, rest⟩
    · exact hlen hsz
    · rw [hsz] at h
      have h3 : rest.foldl (fun m e => min m (segDistSq p e.1 e.2))
          (segDistSq p s.1 s.2) = 0 := h
      have hpos : 0 < (rest.foldl (fun m e => min m (segDistSq p e.1 e.2))
          (segDistSq p s.1 s.2)) := by
        refine foldl_min_pos p rest _ ?_ ?_
        · exact hseg s (by rw [hsz]; exact List.mem_cons_self s rest)
        · intro e he
          exact hseg e (by rw [hsz]; exact List.mem_cons_of_mem s he)
      exact absurd h3 (ne_of_gt hpos)
  · intro h
    rw [ringDistSq, if_pos h]

/-- Claim C3: for the geometry pairs the source computes distances of
(a point against a polygon), distance(a,b) is non-negative, and
distance(a,b) = 0 holds if and only if intersects(a,b) holds, where the
distance is the minimum planar Euclidean distance (the square root of the
exact squared minimum) with no geodesic correction. -/
theorem claimC3_distance_nonneg_zero_iff (p : Pt) (ring : List Pt)
    (hring : 2 ≤ ring.length) :
    0 ≤ Real.sqrt ((ringDistSq p ring : ℚ) : ℝ) ∧
    (Real.sqrt ((ringDistSq p ring : ℚ) : ℝ) = 0 ↔
      pointIntersects p ring = true) := by
  have hnn : (0 : ℝ) ≤ ((ringDistSq p ring : ℚ) : ℝ) := by
    exact_mod_cast ringDistSq_nonneg p ring
  refine ⟨Real.sqrt_nonneg _, ?_⟩
  rw [Real.sqrt_eq_zero hnn]
  rw [← ringDistSq_eq_zero_iff p ring hring]
  exact_mod_cast Iff.rfl

/-- Witness for claim C3 at the point (2, 2) against the demonstration
polygon of src lines 234-236. -/
theorem claimC3_witness :
    0 ≤ Real.sqrt ((ringDistSq (2, 2) poly : ℚ) : ℝ) ∧
    (Real.sqrt ((ringDistSq (2, 2) poly : ℚ) : ℝ) = 0 ↔
      pointIntersects (2, 2) poly = true) :=
  claimC3_distance_nonneg_zero_iff (2, 2) poly (by simp [poly])

/-! ## Claims C1 and C9: area-weighted extensive interpolation

Embedding of the joining-incongruent-layers pipeline of src lines
579-635: each source polygon (an nz region) carries its total area and
Population; nz.overlay(grid) produces fragments, each remembering which
source feature and which grid cell id it came from, plus its own
geometric area (area_sub).  The geometric overlay itself is external; the
pipeline below is the exact attribute arithmetic performed on its
output. -/

/-- One source feature of the nz layer: total area (src line 579) and its
Population attribute. -/
structure SrcFeature : Type where
  area : ℚ
  pop : ℚ
deriving DecidableEq

/-- One pairwise intersection produced by nz.overlay(grid) (src line
585): the source feature it derives from, the grid cell id, and the
fragment area computed at src line 598 (area_sub). -/
structure Fragment : Type where
  srcIdx : ℕ
  gridId : ℕ
  areaSub : ℚ
deriving DecidableEq

/-- area_prop = area_sub / area (src line 613). -/
def areaProp (sources : List SrcFeature) (f : Fragment) : ℚ :=
  f.areaSub / (sources.getD f.srcIdx ⟨0, 0⟩).area

/-- population = Population * area_prop (src line 614). -/
def fragPop (sources : List SrcFeature) (f : Fragment) : ℚ :=
  (sources.getD f.srcIdx ⟨0, 0⟩).pop * areaProp sources f

/-- nz_grid.groupby('id')['population'].sum() (src line 620): the grid
ids present among the fragments, deduplicated in first-appearance order,
each with the sum of its fragments' interpolated population. -/
def groupByIdSums (sources : List SrcFeature) (frags : List Fragment) :
    List (ℕ × ℚ) :=
  ((frags.map Fragment.gridId).dedup).map
    (fun i => (i, ((frags.filter (fun f => f.gridId = i)).map
      (fragPop sources)).sum))

/-- pd.merge(grid, ..., on='id', how='left') (src line 621): every grid
cell id is kept; ids with no aggregate row receive No Data (none), which
is distinct from some 0. -/
def leftMergePopulation (gridIds : List ℕ) (agg : List (ℕ × ℚ)) :
    List (ℕ × Option ℚ) :=
  gridIds.map (fun i => (i, (agg.find? (fun r => r.1 == i)).map Prod.snd))

/-- The full extensive interpolation output on the grid layer. -/
def interpolateExtensive (sources : List SrcFeature) (frags : List Fragment)
    (gridIds : List ℕ) : List (ℕ × Option ℚ) :=
  leftMergePopulation gridIds (groupByIdSums sources frags)

/-- grid['population'].sum() (src line 635): pandas sums skip No Data. -/
def totalGridPop (rows : List (ℕ × Option ℚ)) : ℚ :=
  (rows.map (fun r => r.2.getD 0)).sum

/-- nz['Population'].sum() (src line 633). -/
def totalSourcePop (sources : List SrcFeature) : ℚ :=
  (sources.map SrcFeature.pop).sum

/-- Sums of mapped additions split. -/
lemma sum_map_add_split {α : Type} (l : List α) (f g : α → ℚ) :
    (l.map (fun x => f x + g x)).sum = (l.map f).sum + (l.map g).sum := by
  induction l with
  | nil => simp
  | cons x rest ih =>
      simp [ih]
      ring

/-- Over a duplicate-free key list, the indicator sum picks one value. -/
lemma sum_if_unique (keys : List ℕ) (hnd : keys.Nodup) (a : ℕ)
    (ha : a ∈ keys) (c : ℚ) :
    (keys.map (fun i => if a = i then c else 0)).sum = c := by
  induction keys with
  | nil => cases ha
  | cons k rest ih =>
      rcases List.nodup_cons.1 hnd with ⟨hk, hrest⟩
      by_cases hak : a = k
      · subst hak
        have hzero : (rest.map (fun i => if a = i then c else 0)).sum = 0 := by
          refine List.sum_eq_zero ?_
          intro x hx
          rcases List.mem_map.1 hx with ⟨i, hi, hxi⟩
          have : a ≠ i := fun h => hk (h ▸ hi)
          simp [← hxi, this]
        simp [hzero]
      · have ha2 : a ∈ rest := by
          rcases List.mem_cons.1 ha with h | h
          · exact absurd h hak
          · exact h
        simp [hak, ih hrest ha2]

/-- Summing fragment values fiberwise over any duplicate-free key list
covering all fragments gives the plain sum over the fragments. -/
lemma sum_fiberwise_by_key {α : Type} (keys : List ℕ) (hnd : keys.Nodup)
    (l : List α) (key : α → ℕ) (v : α → ℚ)
    (hcov : ∀ x ∈ l, key x ∈ keys) :
    (keys.map (fun i => ((l.filter (fun x => key x = i)).map v).sum)).sum
      = (l.map v).sum := by
  induction l with
  | nil => simp
  | cons x rest ih =>
      have hx : key x ∈ keys := hcov x (List.mem_cons_self x rest)
      have hr : ∀ y ∈ rest, key y ∈ keys :=
        fun y hy => hcov y (List.mem_cons_of_mem x hy)
      have hsplit : ∀ i : ℕ,
          (((x :: rest).filter (fun y => key y = i)).map v).sum
            = (if key x = i then v x else 0)
              + ((rest.filter (fun y => key y = i)).map v).sum := by
        intro i
        by_cases hki : key x = i <;> simp [List.filter_cons, hki]
      calc (keys.map (fun i =>
              (((x :: rest).filter (fun y => key y = i)).map v).sum)).sum
          = (keys.map (fun i => (if key x = i then v x else 0)
              + ((rest.filter (fun y => key y = i)).map v).sum)).sum := by
            rw [List.map_congr_left (fun i _ => hsplit i)]
        _ = (keys.map (fun i => if key x = i then v x else 0)).sum
              + (keys.map (fun i =>
                  ((rest.filter (fun y => key y = i)).map v).sum)).sum :=
            sum_map_add_split keys _ _
        _ = v x + (rest.map v).sum := by
            rw [sum_if_unique keys hnd (key x) hx (v x), ih hr]
        _ = ((x :: rest).map v).sum := by simp

/-- Lookup in a keyed list built over duplicate-free keys finds the
entry of a present key. -/
lemma find_keyed_mem (keys : List ℕ) (S : ℕ → ℚ) (i : ℕ) (hi : i ∈ keys) :
    ((keys.map (fun k => (k, S k))).find? (fun r => r.1 == i))
      = some (i, S i) := by
  induction keys with
  | nil => cases hi
  | cons k rest ih =>
      by_cases hk : k = i
      · subst hk
        simp [List.find?_cons]
      · have hi2 : i ∈ rest := by
          rcases List.mem_cons.1 hi with h | h
          · exact absurd h.symm hk
          · exact h
        simpa [List.find?_cons, hk] using ih hi2

/-- Lookup in a keyed list misses an absent key. -/
lemma find_keyed_not_mem (keys : List ℕ) (S : ℕ → ℚ) (i : ℕ)
    (hi : i ∉ keys) :
    ((keys.map (fun k => (k, S k))).find? (fun r => r.1 == i)) = none := by
  induction keys with
  | nil => rfl
  | cons k rest ih =>
      have hk : k ≠ i := fun h => hi (h ▸ List.mem_cons_self k rest)
      have hi2 : i ∉ rest := fun h => hi (List.mem_cons_of_mem k h)
      simpa [List.find?_cons, hk] using ih hi2

/-- The merged population column evaluated at one grid id: the fragment
sum for matched ids, No Data for unmatched ids. -/
lemma interpolate_lookup (sources : List SrcFeature) (frags : List Fragment)
    (gridIds : List ℕ) (i : ℕ) (hi : i ∈ gridIds) :
    (i, ((groupByIdSums sources frags).find? (fun r => r.1 == i)).map
        Prod.snd) ∈ interpolateExtensive sources frags gridIds := by
  unfold interpolateExtensive leftMergePopulation
  exact List.mem_map.2 ⟨i, hi, rfl⟩

/-- Claim C1: area-weighted extensive interpolation conserves the total.
If every fragment points at a real source feature and lies in some target
cell, target ids are duplicate-free, and the fragment areas of every
source feature sum to that feature's (nonzero) total area — the exact
meaning of the target tiling covering the source union — then the summed
interpolated population equals the summed source population.  The model
is exact rational arithmetic, so the floating-point tolerance of the
claim is the exact equality. -/
theorem claimC1_conservation (sources : List SrcFeature)
    (frags : List Fragment) (gridIds : List ℕ)
    (hnd : gridIds.Nodup)
    (hcov : ∀ f ∈ frags, f.gridId ∈ gridIds)
    (hsrc : ∀ f ∈ frags, f.srcIdx < sources.length)
    (harea : ∀ j < sources.length,
      ((frags.filter (fun f => f.srcIdx = j)).map Fragment.areaSub).sum
        = (sources.getD j ⟨0, 0⟩).area)
    (hA : ∀ j < sources.length, (sources.getD j ⟨0, 0⟩).area ≠ 0) :
    totalGridPop (interpolateExtensive sources frags gridIds)
      = totalSourcePop sources := by
  have keydef : ∀ i : ℕ,
      ((((groupByIdSums sources frags).find?
          (fun r => r.1 == i)).map Prod.snd).getD 0)
      = ((frags.filter (fun f => f.gridId = i)).map (fragPop sources)).sum := by
    intro i
    by_cases hi : i ∈ (frags.map Fragment.gridId).dedup
    · rw [groupByIdSums, find_keyed_mem _ _ _ hi]
      rfl
    · rw [groupByIdSums, find_keyed_not_mem _ _ _ hi]
      have hempty : frags.filter (fun f => f.gridId = i) = [] := by
        rw [List.filter_eq_nil_iff]
        intro f hf
        simp only [decide_eq_true_eq]
        intro hfi
        exact hi (List.mem_dedup.2 (List.mem_map.2 ⟨f, hf, hfi⟩))
      simp [hempty]
  have step1 : totalGridPop (interpolateExtensive sources frags gridIds)
      = (gridIds.map (fun i =>
          ((frags.filter (fun f => f.gridId = i)).map
            (fragPop sources)).sum)).sum := by
    unfold totalGridPop interpolateExtensive leftMergePopulation
    rw [List.map_map]
    refine congrArg List.sum (List.map_congr_left ?_)
    intro i _
    exact keydef i
  have step2 : (gridIds.map (fun i =>
      ((frags.filter (fun f => f.gridId = i)).map
        (fragPop sources)).sum)).sum = (frags.map (fragPop sources)).sum :=
    sum_fiberwise_by_key gridIds hnd frags Fragment.gridId
      (fragPop sources) hcov
  have step3 : (frags.map (fragPop sources)).sum
      = ((List.range sources.length).map (fun j =>
          ((frags.filter (fun f => f.srcIdx = j)).map
            (fragPop sources)).sum)).sum :=
    (sum_fiberwise_by_key (List.range sources.length) (List.nodup_range _)
      frags Fragment.srcIdx (fragPop sources)
      (fun f hf => List.mem_range.2 (hsrc f hf))).symm
  have step4 : ∀ j < sources.length,
      ((frags.filter (fun f => f.srcIdx = j)).map (fragPop sources)).sum
        = (sources.getD j ⟨0, 0⟩).pop := by
    intro j hj
    have hfix : ∀ f ∈ frags.filter (fun f => f.srcIdx = j),
        fragPop sources f
          = (sources.getD j ⟨0, 0⟩).pop / (sources.getD j ⟨0, 0⟩).area
            * f.areaSub := by
      intro f hf
      have hfj : f.srcIdx = j := by
        have := (List.mem_filter.1 hf).2
        simpa using this
      rw [fragPop, areaProp, hfj]
      ring
    rw [List.map_congr_left hfix, List.sum_map_mul_left, harea j hj,
      div_mul_cancel₀ _ (hA j hj)]
  have step5 : ((List.range sources.length).map (fun j =>
      ((frags.filter (fun f => f.srcIdx = j)).map
        (fragPop sources)).sum)).sum
      = ((List.range sources.length).map (fun j =>
          (sources.getD j ⟨0, 0⟩).pop)).sum := by
    refine congrArg List.sum (List.map_congr_left ?_)
    intro j hj
    exact step4 j (List.mem_range.1 hj)
  have step6 : ∀ l : List SrcFeature,
      ((List.range l.length).map (fun j => (l.getD j ⟨0, 0⟩).pop)).sum
        = totalSourcePop l := by
    intro l
    induction l with
    | nil => simp [totalSourcePop]
    | cons s rest ih =>
        rw [List.length_cons, List.range_succ_eq_map, List.map_cons,
          List.map_map]
        have hcomp : ((fun j => (((s :: rest).getD j ⟨0, 0⟩).pop)) ∘ Nat.succ)
            = (fun j => ((rest.getD j ⟨0, 0⟩).pop)) := by
          funext j
          rfl
        rw [hcomp, List.sum_cons, List.getD_cons_zero, ih]
        simp [totalSourcePop]
  rw [step1, step2, step3, step5, step6 sources]

/-- Witness for claim C1, instantiating the spec section 8 example: two
source regions with populations 100 and 50 (areas 2 and 2) split over
three target cells; the interpolated total is 150. -/
theorem claimC1_witness :
    totalGridPop (interpolateExtensive [⟨2, 100⟩, ⟨2, 50⟩]
        [⟨0, 0, 1⟩, ⟨0, 1, 1⟩, ⟨1, 1, 1⟩, ⟨1, 2, 1⟩] [0, 1, 2])
      = totalSourcePop [⟨2, 100⟩, ⟨2, 50⟩] :=
  claimC1_conservation [⟨2, 100⟩, ⟨2, 50⟩]
    [⟨0, 0, 1⟩, ⟨0, 1, 1⟩, ⟨1, 1, 1⟩, ⟨1, 2, 1⟩] [0, 1, 2]
    (by decide) (by decide) (by decide)
    (by
      intro j hj
      simp only [List.length_cons, List.length_nil] at hj
      interval_cases j <;> norm_num [List.filter])
    (by
      intro j hj
      simp only [List.length_cons, List.length_nil] at hj
      interval_cases j <;> norm_num)

/-- Claim C9: in area-weighted interpolation with a left merge, every
target feature is present in the output in order, and a target with no
overlapping fragment receives the No Data value none — which is distinct
from some 0 — rather than zero. -/
theorem claimC9_left_join_no_data (sources : List SrcFeature)
    (frags : List Fragment) (gridIds : List ℕ) :
    ((interpolateExtensive sources frags gridIds).map Prod.fst = gridIds) ∧
    (∀ i ∈ gridIds, (∀ f ∈ frags, f.gridId ≠ i) →
      (i, (none : Option ℚ)) ∈ interpolateExtensive sources frags gridIds) := by
  constructor
  · unfold interpolateExtensive leftMergePopulation
    induction gridIds with
    | nil => rfl
    | cons i rest ih => simpa using ih
  · intro i hi hno
    have hfind : ((groupByIdSums sources frags).find? (fun r => r.1 == i))
        = none := by
      unfold groupByIdSums
      refine find_keyed_not_mem _ _ _ ?_
      intro hmem
      rcases List.mem_map.1 (List.mem_dedup.1 hmem) with ⟨f, hf, hfi⟩
      exact hno f hf hfi
    have hmem2 := interpolate_lookup sources frags gridIds i hi
    rw [hfind] at hmem2
    simpa using hmem2

/-- Witness for claim C9: one source fragment covering target 0 only;
target 1 appears in the output with No Data. -/
theorem claimC9_witness :
    ((interpolateExtensive [⟨1, 100⟩] [⟨0, 0, 1⟩] [0, 1]).map Prod.fst
      = [0, 1]) ∧
    ((1 : ℕ), (none : Option ℚ))
      ∈ interpolateExtensive [⟨1, 100⟩] [⟨0, 0, 1⟩] [0, 1] :=
  ⟨(claimC9_left_join_no_data [⟨1, 100⟩] [⟨0, 0, 1⟩] [0, 1]).1,
    (claimC9_left_join_no_data [⟨1, 100⟩] [⟨0, 0, 1⟩] [0, 1]).2 1
      (by decide) (by decide)⟩

/-! ## Claim C5: focal minimum with the shrink edge policy

Embedding of scipy.ndimage.minimum_filter(elev, size=3) followed by the
manual no-data edge assignment of src lines 994-1007: the filter runs in
the default reflect mode, then the outermost rows and columns are set to
No Data because their 3 by 3 neighborhoods are incomplete. -/

/-- Boundary index resolution in scipy reflect mode (d c b a | a b c d |
d c b a), for offsets at most one period outside the grid. -/
def reflectIdx (n : ℕ) (i : ℤ) : ℕ :=
  if i < 0 then (-i - 1).toNat
  else if (n : ℤ) ≤ i then (2 * (n : ℤ) - 1 - i).toNat
  else i.toNat

/-- Cell access of a grid stored as a list of rows. -/
def cellAt (g : List (List ℤ)) (i j : ℕ) : ℤ := (g.getD i []).getD j 0

/-- Number of columns of a grid stored as a list of rows. -/
def colsOf (g : List (List ℤ)) : ℕ := (g.getD 0 []).length

/-- The 3 by 3 neighborhood of cell (i, j) under reflect boundary mode. -/
def windowVals (g : List (List ℤ)) (i j : ℕ) : List ℤ :=
  ([(-1, -1), (-1, 0), (-1, 1), (0, -1), (0, 0), (0, 1),
    (1, -1), (1, 0), (1, 1)] : List (ℤ × ℤ)).map
    (fun o => cellAt g (reflectIdx g.length ((i : ℤ) + o.1))
      (reflectIdx (colsOf g) ((j : ℤ) + o.2)))

/-- scipy.ndimage.minimum_filter(elev, size=3) (src line 994): each cell
becomes the minimum of its 3 by 3 reflect-extended neighborhood. -/
def minFilter3 (g : List (List ℤ)) : List (List ℤ) :=
  (List.range g.length).map (fun i =>
    (List.range (colsOf g)).map (fun j =>
      match windowVals g i j with
      | [] => 0
      | v :: vs => vs.foldl min v))

/-- The shrink edge policy: the outermost rows and columns, whose windows
would extend past the grid, are set to No Data (the manual NaN
assignment of src lines 1005-1007). -/
def shrinkEdges (g : List (List ℤ)) : List (List (Option ℤ)) :=
  (List.range g.length).map (fun i =>
    (List.range (colsOf g)).map (fun j =>
      if i = 0 ∨ i = g.length - 1 ∨ j = 0 ∨ j = colsOf g - 1 then none
      else some (cellAt g i j)))

/-- The 3 by 3 minimum filter with the shrink edge policy. -/
def focalMinShrink (g : List (List ℤ)) : List (List (Option ℤ)) :=
  shrinkEdges (minFilter3 g)

/-- Claim C5: applying a 3 by 3 minimum focal filter with the shrink edge
policy to the grid [[1,2,3],[4,5,6],[7,8,9]] gives a center cell (1,1)
equal to 1 (the global minimum) and all eight border cells No Data,
because their windows would extend past the grid. -/
theorem claimC5_focal_min_shrink :
    focalMinShrink [[1, 2, 3], [4, 5, 6], [7, 8, 9]]
      = [[none, none, none], [none, some 1, none], [none, none, none]] := by
  decide

/-! ## Claim C6: integer overflow and the promote-then-narrow path

src lines 856-871: elev ** 2 on the int8 array overflows silently
(numpy wraps modulo 2^8), while elev.astype(int) ** 2 promotes to a wide
integer first and yields the exact squares. -/

/-- numpy int8 wraparound: reduce into the two's-complement range
-128..127. -/
def int8Wrap (v : ℤ) : ℤ := (v + 128) % 256 - 128

/-- elev ** 2 evaluated in int8 (src line 864): squares wrap silently. -/
def squareInt8 (g : List ℤ) : List ℤ := g.map (fun v => int8Wrap (v * v))

/-- elev.astype(int) ** 2 (src line 871): promote to a wide integer type
(exact here), then square. -/
def squarePromoted (g : List ℤ) : List ℤ := g.map (fun v => v * v)

/-- Error raised by a narrowing conversion that would lose information. -/
inductive NarrowErr : Type where
  | TypeOverflow : NarrowErr
deriving DecidableEq

/-- Modelled from the spec: the explicit narrowing step back to 8-bit
required after promote-then-compute (spec sections 4.5 and 7), which
fails with TypeOverflow when the value does not fit and no saturate/wrap
policy was chosen; the source demonstrates only the promotion (src line
871) and has no narrowing function. -/
def narrowToInt8 (v : ℤ) : Except NarrowErr ℤ :=
  if -128 ≤ v ∧ v ≤ 127 then Except.ok v
  else Except.error NarrowErr.TypeOverflow

/-- Claim C6: squaring an 8-bit grid holding 16 via the
promote-then-narrow-explicitly path yields 256 in the promoted type, and
narrowing 256 back to 8 bits without an explicit saturate or wrap choice
fails with TypeOverflow — whereas the in-type squaring wraps silently
to 0. -/
theorem claimC6_overflow_promotion :
    squarePromoted [16] = [256] ∧
    narrowToInt8 256 = Except.error NarrowErr.TypeOverflow ∧
    squareInt8 [16] = [0] :=
  ⟨rfl, rfl, rfl⟩

/-! ## Claim C7: reclassification and idempotence

src lines 897-900: reclassification is performed by successive
boolean-mask assignments whose masks are computed from the original
array, i.e. one pass over the original values in which the last matching
breakpoint row wins and unmatched cells keep their value. -/

/-- One cell reclassified by a breakpoint table of rows (lo, hi, new):
the masks (elev > lo) & (elev <= hi) are all computed from the original
value, assignments are applied in order, unmatched cells are left
unchanged. -/
def reclassifyVal (table : List (ℤ × ℤ × ℤ)) (x : ℤ) : ℤ :=
  table.foldl (fun acc r => if r.1 < x ∧ x ≤ r.2.1 then r.2.2 else acc) x

/-- Whole-grid reclassification (the recl array of src line 897). -/
def reclassify (table : List (ℤ × ℤ × ℤ)) (g : List ℤ) : List ℤ :=
  g.map (reclassifyVal table)

/-- The source's breakpoint table: (0,12] to 1, (12,24] to 2,
(24,36] to 3 (src lines 898-900). -/
def elevTable : List (ℤ × ℤ × ℤ) := [(0, 12, 1), (12, 24, 2), (24, 36, 3)]

/-- Counterexample to claim C7 as stated: with the source's own
breakpoint table, the already-reclassified grid [2] — whose single value
2 is one of the table's new-value targets — is changed again, because 2
falls in the interval (0,12] of the first row; equivalently applying
reclassify twice to the grid [13] differs from applying it once. -/
theorem claimC7_counterexample :
    reclassify elevTable [2] ≠ [2] ∧
    reclassify elevTable (reclassify elevTable [13])
      ≠ reclassify elevTable [13] := by
  decide

/-- The result of one reclassification pass is the original value or one
of the table's new values. -/
lemma reclassify_foldl_cases (table : List (ℤ × ℤ × ℤ)) (x acc : ℤ) :
    table.foldl (fun a r => if r.1 < x ∧ x ≤ r.2.1 then r.2.2 else a) acc
        = acc ∨
      ∃ r ∈ table,
        table.foldl (fun a r => if r.1 < x ∧ x ≤ r.2.1 then r.2.2 else a) acc
          = r.2.2 := by
  induction table generalizing acc with
  | nil => exact Or.inl rfl
  | cons r rest ih =>
      rw [List.foldl_cons]
      by_cases hc : r.1 < x ∧ x ≤ r.2.1
      · rw [if_pos hc]
        rcases ih r.2.2 with h | ⟨r2, hr2, h⟩
        · exact Or.inr ⟨r, List.mem_cons_self r rest, h⟩
        · exact Or.inr ⟨r2, List.mem_cons_of_mem r hr2, h⟩
      · rw [if_neg hc]
        rcases ih acc with h | ⟨r2, hr2, h⟩
        · exact Or.inl h
        · exact Or.inr ⟨r2, List.mem_cons_of_mem r hr2, h⟩

/-- Claim C7 amended: applying reclassify twice with the same breakpoint
table equals applying it once, provided every new value of the table is
itself a fixed point of the table's reclassification.  (The unrestricted
claim is false: a new value may fall inside another row's interval, as
in the source's own table where the target 2 lies in (0,12].) -/
theorem claimC7_amended_idempotence (table : List (ℤ × ℤ × ℤ))
    (g : List ℤ)
    (hfix : ∀ r ∈ table, reclassifyVal table r.2.2 = r.2.2) :
    reclassify table (reclassify table g) = reclassify table g := by
  unfold reclassify
  rw [List.map_map]
  refine List.map_congr_left ?_
  intro x _
  show reclassifyVal table (reclassifyVal table x) = reclassifyVal table x
  rcases reclassify_foldl_cases table x x with h | ⟨r, hr, h⟩
  · rw [show reclassifyVal table x = x from h]
    exact h
  · rw [show reclassifyVal table x = r.2.2 from h]
    exact hfix r hr

/-! ## Claim C8: rasterization/vectorization round trip

Embedding of the unique-ID vectorization of 05-raster-vector.py lines
682-694 (rasterio.features.shapes on a grid of pairwise distinct cell
ids, whose maximal 4-connected constant regions are single cells, each
emitted as its cell rectangle with its value) and of
rasterio.features.rasterize onto the same template (lines 839-845):
each shape burns its value into every cell whose center falls inside the
geometry, later shapes overwriting earlier ones, untouched cells keeping
the fill value. -/

/-- A north-up axis-aligned affine grid transform: top-left corner
(x0, y0) and positive cell sizes, row index growing downward. -/
structure GridTransform : Type where
  x0 : ℚ
  y0 : ℚ
  dx : ℚ
  dy : ℚ
deriving DecidableEq

/-- The coordinate of the center of cell (r, c). -/
def cellCenter (t : GridTransform) (r c : ℕ) : Pt :=
  (t.x0 + ((c : ℚ) + 1 / 2) * t.dx, t.y0 - ((r : ℚ) + 1 / 2) * t.dy)

/-- The axis-aligned square footprint of one cell. -/
structure CellRect : Type where
  xmin : ℚ
  xmax : ℚ
  ymin : ℚ
  ymax : ℚ
deriving DecidableEq

/-- The footprint rectangle of cell (r, c). -/
def cellRect (t : GridTransform) (r c : ℕ) : CellRect :=
  ⟨t.x0 + (c : ℚ) * t.dx, t.x0 + ((c : ℚ) + 1) * t.dx,
    t.y0 - ((r : ℚ) + 1) * t.dy, t.y0 - (r : ℚ) * t.dy⟩

/-- Strict interior membership of a point in a cell rectangle (cell
centers never lie on rectangle edges of the same grid). -/
def inRect (p : Pt) (g : CellRect) : Prop :=
  g.xmin < p.1 ∧ p.1 < g.xmax ∧ g.ymin < p.2 ∧ p.2 < g.ymax

instance (p : Pt) (g : CellRect) : Decidable (inRect p g) := by
  unfold inRect
  infer_instance

/-- rasterio.features.shapes on a grid of pairwise distinct cell values
(src 05 lines 682-690): every maximal 4-connected region of equal value
is a single cell, so the generator yields one (cell rectangle, value)
pair per cell, in row-major order. -/
def vectorizeUnique (t : GridTransform) (hgt wid : ℕ)
    (grid : ℕ → ℕ → ℤ) : List (CellRect × ℤ) :=
  (List.range hgt).flatMap (fun r =>
    (List.range wid).map (fun c => (cellRect t r c, grid r c)))

/-- One output cell of rasterio.features.rasterize (src 05 lines
839-845): fold over the shapes, burning a shape's value whenever the
cell center lies in its geometry; the last burn wins, untouched cells
keep the fill value. -/
def rasterizeCell (shapes : List (CellRect × ℤ)) (fill : ℤ) (p : Pt) : ℤ :=
  shapes.foldl (fun acc s => if inRect p s.1 then s.2 else acc) fill

/-- Whole-grid rasterization onto the template (out_shape, transform). -/
def rasterize (t : GridTransform) (shapes : List (CellRect × ℤ))
    (fill : ℤ) : ℕ → ℕ → ℤ :=
  fun r c => rasterizeCell shapes fill (cellCenter t r c)

/-- Cast comparison: a natural is below another plus one half exactly
when it is at most the other. -/
lemma natCast_lt_add_half_iff (a b : ℕ) :
    (a : ℚ) < (b : ℚ) + 1 / 2 ↔ a ≤ b := by
  constructor
  · intro h
    have h2 : (a : ℚ) < (b : ℚ) + 1 := by linarith
    have h3 : a < b + 1 := by exact_mod_cast h2
    omega
  · intro h
    have h2 : (a : ℚ) ≤ (b : ℚ) := by exact_mod_cast h
    linarith

/-- A cell center lies in a cell rectangle of the same grid exactly when
the two cells coincide. -/
lemma center_in_rect_iff (t : GridTransform) (hdx : 0 < t.dx)
    (hdy : 0 < t.dy) (r c r2 c2 : ℕ) :
    inRect (cellCenter t r c) (cellRect t r2 c2) ↔ r = r2 ∧ c = c2 := by
  unfold inRect cellCenter cellRect
  simp only
  constructor
  · rintro ⟨h1, h2, h3, h4⟩
    have hc1 : (c2 : ℚ) < (c : ℚ) + 1 / 2 :=
      lt_of_mul_lt_mul_right (by linarith) hdx.le
    have hc2 : (c : ℚ) < (c2 : ℚ) + 1 / 2 :=
      lt_of_mul_lt_mul_right (by linarith) hdx.le
    have hr1 : (r : ℚ) < (r2 : ℚ) + 1 / 2 :=
      lt_of_mul_lt_mul_right (by linarith) hdy.le
    have hr2 : (r2 : ℚ) < (r : ℚ) + 1 / 2 :=
      lt_of_mul_lt_mul_right (by linarith) hdy.le
    have := (natCast_lt_add_half_iff c2 c).1 hc1
    have := (natCast_lt_add_half_iff c c2).1 hc2
    have := (natCast_lt_add_half_iff r r2).1 hr1
    have := (natCast_lt_add_half_iff r2 r).1 hr2
    omega
  · rintro ⟨rfl, rfl⟩
    refine ⟨?_, ?_, ?_, ?_⟩ <;> nlinarith

/-- Burning a list of shapes none of which covers the point leaves the
accumulator unchanged. -/
lemma rasterizeCell_no_hit (shapes : List (CellRect × ℤ)) (fill : ℤ)
    (p : Pt) (h : ∀ s ∈ shapes, ¬ inRect p s.1) :
    rasterizeCell shapes fill p = fill := by
  induction shapes generalizing fill with
  | nil => rfl
  | cons s rest ih =>
      rw [rasterizeCell, List.foldl_cons,
        if_neg (h s (List.mem_cons_self s rest))]
      exact ih fill (fun s2 hs2 => h s2 (List.mem_cons_of_mem s hs2))

/-- If some shape covers the point and every covering shape carries the
same value, burning produces that value. -/
lemma rasterizeCell_unique_hit (shapes : List (CellRect × ℤ)) (fill v : ℤ)
    (p : Pt) (hex : ∃ s ∈ shapes, inRect p s.1)
    (hval : ∀ s ∈ shapes, inRect p s.1 → s.2 = v) :
    rasterizeCell shapes fill p = v := by
  induction shapes generalizing fill with
  | nil =>
      rcases hex with ⟨s, hs, -⟩
      cases hs
  | cons s rest ih =>
      rw [rasterizeCell, List.foldl_cons]
      by_cases hrest : ∃ s2 ∈ rest, inRect p s2.1
      · exact ih _ hrest
          (fun s2 hs2 hin => hval s2 (List.mem_cons_of_mem s hs2) hin)
      · have hnone : ∀ s2 ∈ rest, ¬ inRect p s2.1 := by
          intro s2 hs2 hin
          exact hrest ⟨s2, hs2, hin⟩
        by_cases hs : inRect p s.1
        · rw [if_pos hs]
          exact (rasterizeCell_no_hit rest s.2 p hnone).trans
            (hval s (List.mem_cons_self s rest) hs)
        · rcases hex with ⟨s2, hs2, hin⟩
          rcases List.mem_cons.1 hs2 with h | h
          · exact absurd hin (h ▸ hs)
          · exact absurd hin (hnone s2 h)

/-- Membership description of the unique-ID shape list. -/
lemma mem_vectorizeUnique (t : GridTransform) (hgt wid : ℕ)
    (grid : ℕ → ℕ → ℤ) (s : CellRect × ℤ) :
    s ∈ vectorizeUnique t hgt wid grid ↔
      ∃ r2 c2, r2 < hgt ∧ c2 < wid ∧ s = (cellRect t r2 c2, grid r2 c2) := by
  unfold vectorizeUnique
  simp only [List.mem_flatMap, List.mem_map, List.mem_range]
  constructor
  · rintro ⟨r2, hr2, c2, hc2, rfl⟩
    exact ⟨r2, c2, hr2, hc2, rfl⟩
  · rintro ⟨r2, c2, hr2, hc2, rfl⟩
    exact ⟨r2, hr2, c2, hc2, rfl⟩

/-- Claim C8: for a raster grid of pairwise distinct cell ids,
vectorizing (one polygon per cell) and rasterizing back onto the same
template (same shape and transform) reproduces the original grid cell
for cell. -/
theorem claimC8_roundtrip (t : GridTransform) (hgt wid : ℕ)
    (grid : ℕ → ℕ → ℤ) (fill : ℤ) (hdx : 0 < t.dx) (hdy : 0 < t.dy)
    (_hdistinct : ∀ r c r2 c2, r < hgt → c < wid → r2 < hgt → c2 < wid →
      grid r c = grid r2 c2 → r = r2 ∧ c = c2)
    (r c : ℕ) (hr : r < hgt) (hc : c < wid) :
    rasterize t (vectorizeUnique t hgt wid grid) fill r c = grid r c := by
  unfold rasterize
  refine rasterizeCell_unique_hit _ fill (grid r c) _ ?_ ?_
  · refine ⟨(cellRect t r c, grid r c), ?_, ?_⟩
    · exact (mem_vectorizeUnique t hgt wid grid _).2 ⟨r, c, hr, hc, rfl⟩
    · exact (center_in_rect_iff t hdx hdy r c r c).2 ⟨rfl, rfl⟩
  · intro s hs hin
    rcases (mem_vectorizeUnique t hgt wid grid s).1 hs with
      ⟨r2, c2, hr2, hc2, rfl⟩
    rcases (center_in_rect_iff t hdx hdy r c r2 c2).1 hin with ⟨rfl, rfl⟩
    rfl

/-- Witness for claim C8: a 2 by 2 grid of distinct ids on a unit
transform; the round trip restores cell (1, 1). -/
theorem claimC8_witness :
    rasterize ⟨0, 2, 1, 1⟩
      (vectorizeUnique ⟨0, 2, 1, 1⟩ 2 2 (fun r c => 2 * (r : ℤ) + (c : ℤ)))
      0 1 1 = 2 * (1 : ℤ) + 1 :=
  claimC8_roundtrip ⟨0, 2, 1, 1⟩ 2 2 (fun r c => 2 * (r : ℤ) + (c : ℤ)) 0
    (by norm_num) (by norm_num)
    (by
      intro r c r2 c2 hr hc hr2 hc2 h
      dsimp only at h
      constructor <;> omega)
    1 1 (by norm_num) (by norm_num)

/-! ## Claim C10: masking a raster by a geometry without cropping

Embedding of rasterio.mask.mask(src, shapes, crop=False, nodata=...)
(05-raster-vector.py lines 90-95): cells whose center falls inside one
of the mask geometries keep their value, all other cells are set to the
chosen nodata value; with crop=True the output window shrinks to the
rows and columns meeting the geometries' bounding box and the transform
shifts accordingly, while with crop=False shape and transform are
untouched (the narrative at lines 110-111). -/

/-- A single-band in-memory raster: dimensions, transform and cell
values. -/
structure RasterGrid : Type where
  height : ℕ
  width : ℕ
  transform : GridTransform
  vals : ℕ → ℕ → ℤ

/-- Membership of a point in any of the mask polygons (each given by its
exterior ring). -/
def insideAnyRing (shapes : List (List Pt)) (p : Pt) : Bool :=
  shapes.any (fun ring => pointIntersects p ring)

/-- All the x coordinates of the mask polygons' vertices. -/
def shapesXs (shapes : List (List Pt)) : List ℚ := shapes.flatten.map Prod.fst

/-- All the y coordinates of the mask polygons' vertices. -/
def shapesYs (shapes : List (List Pt)) : List ℚ := shapes.flatten.map Prod.snd

/-- Minimum of a coordinate list (0 for no vertices). -/
def coordMin : List ℚ → ℚ
  | [] => 0
  | a :: rest => rest.foldl min a

/-- Maximum of a coordinate list (0 for no vertices). -/
def coordMax : List ℚ → ℚ
  | [] => 0
  | a :: rest => rest.foldl max a

/-- rasterio.mask.mask: burn nodata outside the geometries; when crop is
requested, additionally slice the raster to the window of rows and
columns meeting the geometries' bounding box, shifting the transform to
the window's top-left corner. -/
def maskRaster (src : RasterGrid) (shapes : List (List Pt)) (crop : Bool)
    (nodata : ℤ) : RasterGrid :=
  let masked : ℕ → ℕ → ℤ := fun r c =>
    if insideAnyRing shapes (cellCenter src.transform r c) then src.vals r c
    else nodata
  if crop then
    let c0 : ℕ := (max 0
      ⌊(coordMin (shapesXs shapes) - src.transform.x0) / src.transform.dx⌋).toNat
    let c1 : ℕ := min src.width (max 0
      ⌈(coordMax (shapesXs shapes) - src.transform.x0) / src.transform.dx⌉).toNat
    let r0 : ℕ := (max 0
      ⌊(src.transform.y0 - coordMax (shapesYs shapes)) / src.transform.dy⌋).toNat
    let r1 : ℕ := min src.height (max 0
      ⌈(src.transform.y0 - coordMin (shapesYs shapes)) / src.transform.dy⌉).toNat
    { height := r1 - r0
      width := c1 - c0
      transform := ⟨src.transform.x0 + (c0 : ℚ) * src.transform.dx,
        src.transform.y0 - (r0 : ℚ) * src.transform.dy,
        src.transform.dx, src.transform.dy⟩
      vals := fun r c => masked (r + r0) (c + c0) }
  else
    { height := src.height
      width := src.width
      transform := src.transform
      vals := masked }

/-- Claim C10: masking a raster by geometries without cropping leaves the
grid's shape and affine transform identical to the input's; every cell
whose center lies in a mask geometry keeps its original value, and every
other cell is set to the chosen nodata value. -/
theorem claimC10_mask_no_crop (src : RasterGrid) (shapes : List (List Pt))
    (nodata : ℤ) :
    (maskRaster src shapes false nodata).height = src.height ∧
    (maskRaster src shapes false nodata).width = src.width ∧
    (maskRaster src shapes false nodata).transform = src.transform ∧
    (∀ r c, insideAnyRing shapes (cellCenter src.transform r c) = true →
      (maskRaster src shapes false nodata).vals r c = src.vals r c) ∧
    (∀ r c, insideAnyRing shapes (cellCenter src.transform r c) = false →
      (maskRaster src shapes false nodata).vals r c = nodata) := by
  refine ⟨rfl, rfl, rfl, ?_, ?_⟩ <;>
    · intro r c h
      simp [maskRaster, h]

/-- Witness for claim C10: a one-cell raster masked by an empty geometry
list keeps its transform and the uncovered cell becomes 9999. -/
theorem claimC10_witness :
    (maskRaster ⟨1, 1, ⟨0, 1, 1, 1⟩, fun _ _ => 5⟩ [] false 9999).transform
      = (⟨0, 1, 1, 1⟩ : GridTransform) ∧
    (maskRaster ⟨1, 1, ⟨0, 1, 1, 1⟩, fun _ _ => 5⟩ [] false 9999).vals 0 0
      = 9999 :=
  ⟨(claimC10_mask_no_crop ⟨1, 1, ⟨0, 1, 1, 1⟩, fun _ _ => 5⟩ [] 9999).2.2.1,
    (claimC10_mask_no_crop ⟨1, 1, ⟨0, 1, 1, 1⟩, fun _ _ => 5⟩ []
      9999).2.2.2.2 0 0 rfl⟩

/-- Witness for the amended claim C7: the one-row table (0,10] to 1 has
its target 1 as a fixed point, and reclassifying [5, 20] twice equals
reclassifying it once. -/
theorem claimC7_witness :
    (∀ r ∈ [((0 : ℤ), (10 : ℤ), (1 : ℤ))],
      reclassifyVal [(0, 10, 1)] r.2.2 = r.2.2) ∧
    reclassify [(0, 10, 1)] (reclassify [(0, 10, 1)] [5, 20])
      = reclassify [(0, 10, 1)] [5, 20] :=
  ⟨by decide,
    claimC7_amended_idempotence [(0, 10, 1)] [5, 20] (by decide)⟩
